import Mathlib

/-!
Shallow embedding of `trimesh/smoothing.py` (Laplacian mesh smoothing).

The module defines three in-place smoothing filters (`filter_laplacian`,
`filter_humphrey`, `filter_taubin`) and the sparse-operator constructor
`laplacian_calculation`.  Vertex positions are modelled as `V × 3` matrices
over `ℚ`; the sparse `coo_matrix` is modelled as a dense `V × V` matrix over
`ℚ` (a `coo_matrix` sums duplicate `(row, col)` triplets, hence the
`List.count` factor in the entry formulas below).  External collaborators
(numpy's `sqrt`, scipy's `spsolve`, trimesh's volume computation) are
parameters of the embedding, mirroring the spec's treatment of the numerical
library and the mesh entity as external.  Python exceptions are modelled with
`Except Err`; a filter call returns the caller-visible pair
`(raised exception?, mesh after the call)` — the source mutates the mesh only
in the final `mesh.vertices = vertices` assignment, so on every exceptional
path the returned mesh is the unchanged input mesh.
-/

namespace Trimesh

/-- Python runtime errors raised by the module:
`NameError` (`mass_properties` is referenced in `filter_laplacian` but never
imported or defined) and `ZeroDivisionError` (`1.0 / len(n)` on an empty
neighbor list in `laplacian_calculation`). -/
inductive Err where
  | nameError : Err
  | zeroDivisionError : Err
deriving DecidableEq, Repr

/-- The mesh entity (external `trimesh.Trimesh`): vertex positions
(`mesh.vertices`, a `V × 3` float array, here over `ℚ`), per-vertex neighbor
lists (`mesh.vertex_neighbors`) and the triangle list (`mesh.faces`, used
only by the external volume collaborator). -/
structure Mesh (V : ℕ) where
  vertices : Matrix (Fin V) (Fin 3) ℚ
  neighbors : Fin V → List (Fin V)
  faces : List (Fin V × Fin V × Fin V)

/-- Equal-weight branch of `laplacian_calculation`:
`data = concatenate([[1.0 / len(n)] * len(n) for n in neighbors])`, assembled
into `coo_matrix((data, (row, col)))`.  Entry `(i, j)` is the sum of
`1 / len(neighbors[i])` over the occurrences of `j` in `neighbors[i]`. -/
def laplacian_equal {V : ℕ} (neighbors : Fin V → List (Fin V)) :
    Matrix (Fin V) (Fin V) ℚ :=
  Matrix.of fun i j =>
    ((neighbors i).count j : ℚ) * (1 / ((neighbors i).length : ℚ))

/-- Squared distance `np.dot((vertices[i] - vertices[j]) ** 2, ones)`:
the dot product with `ones(3)` sums the three squared coordinate
differences. -/
def distSq {V : ℕ} (vertices : Matrix (Fin V) (Fin 3) ℚ) (i j : Fin V) : ℚ :=
  ∑ c, (vertices i c - vertices j c) ^ 2

/-- Inverse-distance branch of `laplacian_calculation`:
`norms = [1.0 / np.sqrt(np.dot((vertices[i] - vertices[n]) ** 2, ones)) ...]`
then `data = concatenate([i / i.sum() for i in norms])`.  Entry `(i, j)` is
the sum over occurrences of `j` in `neighbors[i]` of the row-normalised
inverse distance.  `sqrt` is numpy's square root, an external collaborator. -/
def laplacian_invdist {V : ℕ} (vertices : Matrix (Fin V) (Fin 3) ℚ)
    (neighbors : Fin V → List (Fin V)) (sqrt : ℚ → ℚ) :
    Matrix (Fin V) (Fin V) ℚ :=
  Matrix.of fun i j =>
    ((neighbors i).count j : ℚ) *
      ((1 / sqrt (distSq vertices i j)) /
        (((neighbors i).map fun k => 1 / sqrt (distSq vertices i k)).sum))

/-- `laplacian_calculation(mesh, equal_weight=True)`.  In the equal-weight
branch Python evaluates `1.0 / len(n)` for every neighbor list `n`, raising
`ZeroDivisionError` at the first empty list.  The inverse-distance branch
raises no exception (numpy division of an empty array is silent), so an
isolated vertex there yields a row with no stored entries. -/
def laplacian_calculation {V : ℕ} (mesh : Mesh V) (equal_weight : Bool)
    (sqrt : ℚ → ℚ) : Except Err (Matrix (Fin V) (Fin V) ℚ) :=
  let neighbors := mesh.neighbors
  let vertices := mesh.vertices
  if equal_weight then
    if (List.finRange V).any (fun i => (neighbors i).isEmpty) then
      .error .zeroDivisionError
    else
      .ok (laplacian_equal neighbors)
  else
    .ok (laplacian_invdist vertices neighbors sqrt)

/-- The `if laplacian_operator is None: laplacian_operator =
laplacian_calculation(mesh)` preamble shared by all three filters
(`equal_weight` defaults to `True`). -/
def resolve_laplacian {V : ℕ} (mesh : Mesh V)
    (laplacian_operator : Option (Matrix (Fin V) (Fin V) ℚ)) (sqrt : ℚ → ℚ) :
    Except Err (Matrix (Fin V) (Fin V) ℚ) :=
  match laplacian_operator with
  | none => laplacian_calculation mesh true sqrt
  | some L => .ok L

/-- The `for _index in range(iterations)` loop of `filter_laplacian`, acting
on the detached `vertices` buffer.  Explicit mode:
`dot = laplacian_operator.dot(vertices) - vertices; vertices += lamb * dot`.
Implicit mode: `vertices = spsolve(AA, vertices)`.  The volume-constraint
branch then evaluates `mass_properties(...)`, a name never imported or
defined in the module: Python raises `NameError` there. -/
def filter_laplacian_loop {V : ℕ} (laplacian_operator AA : Matrix (Fin V) (Fin V) ℚ)
    (lamb : ℚ) (implicit_time_integration volume_constraint : Bool)
    (spsolve : Matrix (Fin V) (Fin V) ℚ → Matrix (Fin V) (Fin 3) ℚ →
      Matrix (Fin V) (Fin 3) ℚ) :
    ℕ → Matrix (Fin V) (Fin 3) ℚ → Except Err (Matrix (Fin V) (Fin 3) ℚ)
  | 0, vertices => .ok vertices
  | n + 1, vertices =>
      let vertices' :=
        if implicit_time_integration then spsolve AA vertices
        else vertices + lamb • (laplacian_operator * vertices - vertices)
      if volume_constraint then
        -- vol = mass_properties(mesh.triangles, skip_inertia=True)["volume"]
        -- `mass_properties` is unbound in the module: NameError.
        .error .nameError
      else
        filter_laplacian_loop laplacian_operator AA lamb
          implicit_time_integration volume_constraint spsolve n vertices'

/-- `filter_laplacian(mesh, lamb, iterations, implicit_time_integration,
volume_constraint, laplacian_operator)`.  `spsolve` (scipy) and `volume`
(`mesh.volume`, trimesh's mass-property collaborator) are external.
The mesh is written only by the final `mesh.vertices = vertices`; on an
exception the caller's mesh is returned unchanged. -/
def filter_laplacian {V : ℕ} (mesh : Mesh V) (lamb : ℚ) (iterations : ℕ)
    (implicit_time_integration volume_constraint : Bool)
    (laplacian_operator : Option (Matrix (Fin V) (Fin V) ℚ)) (sqrt : ℚ → ℚ)
    (spsolve : Matrix (Fin V) (Fin V) ℚ → Matrix (Fin V) (Fin 3) ℚ →
      Matrix (Fin V) (Fin 3) ℚ)
    (volume : Mesh V → ℚ) : Option Err × Mesh V :=
  match resolve_laplacian mesh laplacian_operator sqrt with
  | .error e => (some e, mesh)
  | .ok L =>
      -- if volume_constraint == True: v_ini = mesh.volume
      let v_ini := if volume_constraint then volume mesh else 0
      -- AA = eye(dlap) + lamb * (eye(dlap) - laplacian_operator)
      let AA := (1 : Matrix (Fin V) (Fin V) ℚ) + lamb • (1 - L)
      match filter_laplacian_loop L AA lamb implicit_time_integration
          volume_constraint spsolve iterations mesh.vertices with
      | .error e => (some e, mesh)
      | .ok vertices =>
          let _ := v_ini
          (none, { mesh with vertices := vertices })

/-- The `for _index in range(iterations)` loop of `filter_humphrey`:
`vert_q = vertices.copy(); vertices = L.dot(vertices);
vert_b = vertices - (alpha * original + (1 - alpha) * vert_q);
vertices -= beta * vert_b + (1 - beta) * L.dot(vert_b)`. -/
def filter_humphrey_loop {V : ℕ} (laplacian_operator : Matrix (Fin V) (Fin V) ℚ)
    (alpha beta : ℚ) (original : Matrix (Fin V) (Fin 3) ℚ) :
    ℕ → Matrix (Fin V) (Fin 3) ℚ → Matrix (Fin V) (Fin 3) ℚ
  | 0, vertices => vertices
  | n + 1, vertices =>
      let vert_q := vertices
      let vertices' := laplacian_operator * vertices
      let vert_b := vertices' - (alpha • original + (1 - alpha) • vert_q)
      let vertices'' := vertices' -
        (beta • vert_b + (1 - beta) • (laplacian_operator * vert_b))
      filter_humphrey_loop laplacian_operator alpha beta original n vertices''

/-- `filter_humphrey(mesh, alpha, beta, iterations, laplacian_operator)`.
`original = vertices.copy()` is captured once before the loop. -/
def filter_humphrey {V : ℕ} (mesh : Mesh V) (alpha beta : ℚ) (iterations : ℕ)
    (laplacian_operator : Option (Matrix (Fin V) (Fin V) ℚ)) (sqrt : ℚ → ℚ) :
    Option Err × Mesh V :=
  match resolve_laplacian mesh laplacian_operator sqrt with
  | .error e => (some e, mesh)
  | .ok L =>
      let vertices := mesh.vertices
      let original := vertices
      (none,
        { mesh with
            vertices := filter_humphrey_loop L alpha beta original iterations vertices })

/-- The `for index in range(iterations)` loop of `filter_taubin`, carrying
the 0-based iteration index:
`dot = laplacian_operator.dot(vertices) - vertices;
if index % 2 == 0: vertices += lamb * dot else: vertices -= nu * dot`. -/
def filter_taubin_loop {V : ℕ} (laplacian_operator : Matrix (Fin V) (Fin V) ℚ)
    (lamb nu : ℚ) :
    ℕ → ℕ → Matrix (Fin V) (Fin 3) ℚ → Matrix (Fin V) (Fin 3) ℚ
  | _, 0, vertices => vertices
  | index, n + 1, vertices =>
      let dot := laplacian_operator * vertices - vertices
      let vertices' :=
        if index % 2 = 0 then vertices + lamb • dot else vertices - nu • dot
      filter_taubin_loop laplacian_operator lamb nu (index + 1) n vertices'

/-- `filter_taubin(mesh, lamb, nu, iterations, laplacian_operator)`. -/
def filter_taubin {V : ℕ} (mesh : Mesh V) (lamb nu : ℚ) (iterations : ℕ)
    (laplacian_operator : Option (Matrix (Fin V) (Fin V) ℚ)) (sqrt : ℚ → ℚ) :
    Option Err × Mesh V :=
  match resolve_laplacian mesh laplacian_operator sqrt with
  | .error e => (some e, mesh)
  | .ok L =>
      let vertices := mesh.vertices
      (none,
        { mesh with vertices := filter_taubin_loop L lamb nu 0 iterations vertices })

/-- The explicit diffusion update rule as the spec states it:
`v ← v + λ·(L·v − v)`, applied to the whole buffer simultaneously.  The
theorems below show each explicit `filter_laplacian` iteration performs
exactly this map. -/
def diffusion_explicit_step {V : ℕ} (L : Matrix (Fin V) (Fin V) ℚ)
    (lamb : ℚ) (w : Matrix (Fin V) (Fin 3) ℚ) : Matrix (Fin V) (Fin 3) ℚ :=
  w + lamb • (L * w - w)

/-- The Humphrey update rule as the spec states it: from incoming buffer
`q`, `p = L·q`, `b = p − (α·original + (1−α)·q)`, result
`p − (β·b + (1−β)·L·b)`.  The theorems below show each `filter_humphrey`
iteration performs exactly this map with `original` fixed for the run. -/
def humphrey_step {V : ℕ} (L : Matrix (Fin V) (Fin V) ℚ) (alpha beta : ℚ)
    (original q : Matrix (Fin V) (Fin 3) ℚ) : Matrix (Fin V) (Fin 3) ℚ :=
  let p := L * q
  let b := p - (alpha • original + (1 - alpha) • q)
  p - (beta • b + (1 - beta) • (L * b))

/-! Concrete meshes used by witnesses and counterexamples. -/

/-- Two vertices joined by an edge. -/
def meshA : Mesh 2 where
  vertices := !![0, 0, 0; 1, 0, 0]
  neighbors := ![[1], [0]]
  faces := []

/-- Three vertices; vertex `2` is isolated (empty neighbor list). -/
def meshB : Mesh 3 where
  vertices := !![0, 0, 0; 1, 0, 0; 5, 5, 5]
  neighbors := ![[1], [0], []]
  faces := []

/-- A triangle: every vertex has the other two as neighbors. -/
def meshTri : Mesh 3 where
  vertices := !![0, 0, 0; 1, 0, 0; 0, 1, 0]
  neighbors := ![[1, 2], [0, 2], [0, 1]]
  faces := [(0, 1, 2)]

/-! ## Helper lemmas -/

lemma laplacian_invdist_row_of_empty {V : ℕ} (vertices : Matrix (Fin V) (Fin 3) ℚ)
    (neighbors : Fin V → List (Fin V)) (sqrt : ℚ → ℚ) (i : Fin V)
    (h : neighbors i = []) (j : Fin V) :
    laplacian_invdist vertices neighbors sqrt i j = 0 := by
  simp [laplacian_invdist, h]

lemma sum_count_mul {V : ℕ} (l : List (Fin V)) (f : Fin V → ℚ) :
    (∑ j, (l.count j : ℚ) * f j) = (l.map f).sum := by
  induction l with
  | nil => simp
  | cons a l ih =>
      have hc : ∀ j : Fin V, (((a :: l).count j : ℚ)) * f j
          = (l.count j : ℚ) * f j + (if j = a then f j else 0) := by
        intro j
        by_cases h : j = a
        · simp only [List.count_cons, h, if_pos rfl, beq_self_eq_true]
          push_cast
          ring
        · simp [List.count_cons, h]
      rw [Finset.sum_congr rfl fun j _ => hc j, Finset.sum_add_distrib, ih,
        Finset.sum_ite_eq' Finset.univ a f]
      simp [add_comm]

lemma sum_count_length {V : ℕ} (l : List (Fin V)) :
    (∑ j, (l.count j : ℚ)) = l.length := by
  have h := sum_count_mul l (fun _ => 1)
  simpa using h

lemma laplacian_calculation_equal_ok {V : ℕ} (mesh : Mesh V) (sqrt : ℚ → ℚ)
    (hne : ∀ i, mesh.neighbors i ≠ []) :
    laplacian_calculation mesh true sqrt = .ok (laplacian_equal mesh.neighbors) := by
  have hany : ((List.finRange V).any fun i => (mesh.neighbors i).isEmpty) = false := by
    rw [List.any_eq_false]
    intro i _
    simp [List.isEmpty_iff, hne i]
  simp [laplacian_calculation, hany]

lemma filter_laplacian_loop_explicit {V : ℕ} (L AA : Matrix (Fin V) (Fin V) ℚ)
    (lamb : ℚ)
    (spsolve : Matrix (Fin V) (Fin V) ℚ → Matrix (Fin V) (Fin 3) ℚ →
      Matrix (Fin V) (Fin 3) ℚ)
    (n : ℕ) (v : Matrix (Fin V) (Fin 3) ℚ) :
    filter_laplacian_loop L AA lamb false false spsolve n v =
      .ok ((diffusion_explicit_step L lamb)^[n] v) := by
  induction n generalizing v with
  | zero => rfl
  | succ n ih =>
      rw [show filter_laplacian_loop L AA lamb false false spsolve (n + 1) v
          = filter_laplacian_loop L AA lamb false false spsolve n
              (diffusion_explicit_step L lamb v) from rfl,
        ih, Function.iterate_succ_apply]

lemma filter_laplacian_loop_implicit {V : ℕ} (L AA : Matrix (Fin V) (Fin V) ℚ)
    (lamb : ℚ)
    (spsolve : Matrix (Fin V) (Fin V) ℚ → Matrix (Fin V) (Fin 3) ℚ →
      Matrix (Fin V) (Fin 3) ℚ)
    (n : ℕ) (v : Matrix (Fin V) (Fin 3) ℚ) :
    filter_laplacian_loop L AA lamb true false spsolve n v =
      .ok ((spsolve AA)^[n] v) := by
  induction n generalizing v with
  | zero => rfl
  | succ n ih =>
      rw [show filter_laplacian_loop L AA lamb true false spsolve (n + 1) v
          = filter_laplacian_loop L AA lamb true false spsolve n (spsolve AA v)
          from rfl,
        ih, Function.iterate_succ_apply]

lemma filter_humphrey_loop_iterate {V : ℕ}
    (L : Matrix (Fin V) (Fin V) ℚ) (alpha beta : ℚ)
    (original : Matrix (Fin V) (Fin 3) ℚ) (n : ℕ)
    (v : Matrix (Fin V) (Fin 3) ℚ) :
    filter_humphrey_loop L alpha beta original n v =
      (humphrey_step L alpha beta original)^[n] v := by
  induction n generalizing v with
  | zero => rfl
  | succ n ih =>
      rw [show filter_humphrey_loop L alpha beta original (n + 1) v
          = filter_humphrey_loop L alpha beta original n
              (humphrey_step L alpha beta original v) from rfl,
        ih, Function.iterate_succ_apply]

/-! ## Theorems about the claims -/

/-- C3: with every vertex having at least one (duplicate-free) neighbor,
equal-weight `laplacian_calculation` succeeds and returns the `V × V`
operator whose row `i` has entry `1 / deg(i)` exactly at the neighbors of
`i`; every row sums to exactly `1` in rational arithmetic. -/
theorem build_laplacian_equal_weight_row_stochastic {V : ℕ} (mesh : Mesh V)
    (sqrt : ℚ → ℚ)
    (hne : ∀ i, mesh.neighbors i ≠ [])
    (hnd : ∀ i, (mesh.neighbors i).Nodup) :
    laplacian_calculation mesh true sqrt = .ok (laplacian_equal mesh.neighbors) ∧
    (∀ i, ∑ j, laplacian_equal mesh.neighbors i j = 1) ∧
    (∀ i j, laplacian_equal mesh.neighbors i j ≠ 0 ↔ j ∈ mesh.neighbors i) ∧
    (∀ i j, j ∈ mesh.neighbors i →
      laplacian_equal mesh.neighbors i j = 1 / ((mesh.neighbors i).length : ℚ)) := by
  have hlen : ∀ i, ((mesh.neighbors i).length : ℚ) ≠ 0 := fun i => by
    exact_mod_cast List.length_pos.mpr (hne i) |>.ne'
  refine ⟨laplacian_calculation_equal_ok mesh sqrt hne, fun i => ?_, fun i j => ?_,
    fun i j hj => ?_⟩
  · rw [show (∑ j, laplacian_equal mesh.neighbors i j)
        = ∑ j, ((mesh.neighbors i).count j : ℚ) * (1 / ((mesh.neighbors i).length : ℚ))
      from rfl, ← Finset.sum_mul, sum_count_length]
    rw [mul_one_div, div_self (hlen i)]
  · constructor
    · intro hij
      by_contra hmem
      have : ((mesh.neighbors i).count j : ℚ) = 0 := by
        simp [List.count_eq_zero_of_not_mem hmem]
      simp only [laplacian_equal, Matrix.of_apply] at hij
      exact hij (by rw [this, zero_mul])
    · intro hmem
      have hcount : ((mesh.neighbors i).count j : ℚ) ≠ 0 := by
        exact_mod_cast (List.count_pos_iff.mpr hmem).ne'
      exact mul_ne_zero hcount (one_div_ne_zero (hlen i))
  · have hcount : (mesh.neighbors i).count j = 1 :=
      List.count_eq_one_of_mem (hnd i) hj
    simp [laplacian_equal, hcount]

/-- C3 witness: on the triangle mesh the equal-weight operator is returned
with row `0` summing to `1`, entry `(0, 2)` nonzero since `2` is a neighbor
of `0`, and entry `(0, 1)` equal to `1 / deg(0)`. -/
theorem build_laplacian_equal_weight_row_stochastic_witness :
    laplacian_calculation meshTri true (fun q => q) =
      .ok (laplacian_equal meshTri.neighbors) ∧
    (∑ j, laplacian_equal meshTri.neighbors 0 j = 1) ∧
    (laplacian_equal meshTri.neighbors 0 2 ≠ 0 ↔ (2 : Fin 3) ∈ meshTri.neighbors 0) ∧
    laplacian_equal meshTri.neighbors 0 1 = 1 / ((meshTri.neighbors 0).length : ℚ) := by
  obtain ⟨h1, h2, h3, h4⟩ := build_laplacian_equal_weight_row_stochastic meshTri
    (fun q => q) (by decide) (by decide)
  exact ⟨h1, h2 0, h3 0 2, h4 0 1 (by decide)⟩

/-- C4, corrected: an isolated vertex makes the equal-weight branch raise
`ZeroDivisionError` (`1.0 / len(n)`), but the inverse-distance branch raises
nothing: it silently returns an operator whose row for the isolated vertex
is entirely zero. -/
theorem build_laplacian_isolated_vertex {V : ℕ} (mesh : Mesh V) (sqrt : ℚ → ℚ)
    (i : Fin V) (h : mesh.neighbors i = []) :
    laplacian_calculation mesh true sqrt = .error .zeroDivisionError ∧
    laplacian_calculation mesh false sqrt =
      .ok (laplacian_invdist mesh.vertices mesh.neighbors sqrt) ∧
    (∀ j, laplacian_invdist mesh.vertices mesh.neighbors sqrt i j = 0) := by
  refine ⟨?_, rfl, fun j => laplacian_invdist_row_of_empty _ _ _ _ h j⟩
  have hany : ((List.finRange V).any fun k => (mesh.neighbors k).isEmpty) = true := by
    rw [List.any_eq_true]
    exact ⟨i, List.mem_finRange i, by simp [h]⟩
  simp [laplacian_calculation, hany]

/-- C4 witness: on the mesh whose vertex `2` is isolated, equal-weight mode
raises `ZeroDivisionError` and inverse-distance mode yields a zero entry in
row `2`. -/
theorem build_laplacian_isolated_vertex_witness :
    laplacian_calculation meshB true (fun q => q) = .error .zeroDivisionError ∧
    laplacian_invdist meshB.vertices meshB.neighbors (fun q => q) 2 1 = 0 := by
  obtain ⟨h1, _, h3⟩ := build_laplacian_isolated_vertex meshB (fun q => q) 2 rfl
  exact ⟨h1, h3 1⟩

/-- C4 counterexample: contrary to the claim that `build_laplacian` raises a
fatal error for an isolated vertex in both modes, the inverse-distance mode
on the mesh whose vertex `2` has no neighbors returns an operator normally,
and the isolated vertex's row is silently all-zero (degenerate). -/
theorem build_laplacian_isolated_inverse_mode_no_error :
    laplacian_calculation meshB false (fun q => q) =
      .ok (laplacian_invdist meshB.vertices meshB.neighbors (fun q => q)) ∧
    (laplacian_invdist meshB.vertices meshB.neighbors (fun q => q) 2 0,
     laplacian_invdist meshB.vertices meshB.neighbors (fun q => q) 2 1,
     laplacian_invdist meshB.vertices meshB.neighbors (fun q => q) 2 2) =
      (0, 0, 0) := by
  refine ⟨rfl, ?_⟩
  have h : meshB.neighbors 2 = [] := rfl
  simp [laplacian_invdist_row_of_empty meshB.vertices meshB.neighbors
    (fun q => q) 2 h]

/-- C1 (code bug): with the volume constraint enabled, the per-iteration
volume computation evaluates the unbound name `mass_properties`, so instead
of rescaling by `(V0/Vol)^(1/3)` with `Vol` the volume of the updated
vertices, `filter_laplacian` raises `NameError` in the first iteration and
returns the mesh unchanged; evaluated here on the triangle mesh with the
default parameter values `lamb = 0.5`, `iterations = 10`. -/
theorem smooth_diffusion_volume_rescale_never_runs :
    filter_laplacian meshTri (1/2) 10 false true
      (some (laplacian_equal meshTri.neighbors)) (fun q => q) (fun _ v => v)
      (fun _ => 1) = (some .nameError, meshTri) := by rfl

/-- C2, corrected: every `filter_laplacian` call with
`volume_constraint = True` that reaches the loop with at least one iteration
(here: the operator is supplied, `iterations ≥ 1`) raises `NameError` at the
per-iteration volume computation, in explicit and implicit mode alike, and
the caller's mesh is returned with its vertex positions unchanged. -/
theorem smooth_diffusion_volume_constraint_name_error {V : ℕ} (mesh : Mesh V)
    (lamb : ℚ) (iterations : ℕ) (implicit_time_integration : Bool)
    (L : Matrix (Fin V) (Fin V) ℚ) (sqrt : ℚ → ℚ)
    (spsolve : Matrix (Fin V) (Fin V) ℚ → Matrix (Fin V) (Fin 3) ℚ →
      Matrix (Fin V) (Fin 3) ℚ)
    (volume : Mesh V → ℚ) (h : 1 ≤ iterations) :
    filter_laplacian mesh lamb iterations implicit_time_integration true
      (some L) sqrt spsolve volume = (some .nameError, mesh) := by
  obtain ⟨n, rfl⟩ : ∃ n, iterations = n + 1 := ⟨iterations - 1, by omega⟩
  rfl

/-- C2 witness: one implicit-mode iteration with the volume constraint on
the two-vertex mesh raises `NameError` and leaves the mesh unchanged. -/
theorem smooth_diffusion_volume_constraint_name_error_witness :
    filter_laplacian meshA (1/2) 1 true true
      (some (laplacian_equal meshA.neighbors)) (fun q => q) (fun _ v => v)
      (fun _ => 1) = (some .nameError, meshA) :=
  smooth_diffusion_volume_constraint_name_error meshA (1/2) 1 true
    (laplacian_equal meshA.neighbors) (fun q => q) (fun _ v => v)
    (fun _ => 1) (by decide)

/-- C2 counterexample: with `iterations = 0` the loop body never runs, so a
`volume_constraint = True` call raises nothing and performs the final
whole-array assignment, contradicting the claim that every such call raises
an unresolved-name error. -/
theorem smooth_diffusion_volume_constraint_zero_iterations :
    filter_laplacian meshA (1/2) 0 false true
      (some (laplacian_equal meshA.neighbors)) (fun q => q) (fun _ v => v)
      (fun _ => 1) = (none, meshA) := by rfl

/-- C5: on every exceptional exit of any of the three filters the caller's
mesh is returned with its vertex positions untouched: the loop acts on a
detached buffer and the mesh is written only by the final whole-array
assignment, which an error path never reaches. -/
theorem filters_leave_mesh_unchanged_on_error {V : ℕ} (mesh : Mesh V) :
    (∀ (lamb : ℚ) (iterations : ℕ) (impl vc : Bool)
        (op : Option (Matrix (Fin V) (Fin V) ℚ)) (sqrt : ℚ → ℚ)
        (spsolve : Matrix (Fin V) (Fin V) ℚ → Matrix (Fin V) (Fin 3) ℚ →
          Matrix (Fin V) (Fin 3) ℚ)
        (volume : Mesh V → ℚ),
        ((filter_laplacian mesh lamb iterations impl vc op sqrt spsolve
            volume).1).isSome = true →
        (filter_laplacian mesh lamb iterations impl vc op sqrt spsolve
            volume).2 = mesh) ∧
    (∀ (alpha beta : ℚ) (iterations : ℕ)
        (op : Option (Matrix (Fin V) (Fin V) ℚ)) (sqrt : ℚ → ℚ),
        ((filter_humphrey mesh alpha beta iterations op sqrt).1).isSome = true →
        (filter_humphrey mesh alpha beta iterations op sqrt).2 = mesh) ∧
    (∀ (lamb nu : ℚ) (iterations : ℕ)
        (op : Option (Matrix (Fin V) (Fin V) ℚ)) (sqrt : ℚ → ℚ),
        ((filter_taubin mesh lamb nu iterations op sqrt).1).isSome = true →
        (filter_taubin mesh lamb nu iterations op sqrt).2 = mesh) := by
  refine ⟨fun lamb iterations impl vc op sqrt spsolve volume => ?_,
    fun alpha beta iterations op sqrt => ?_,
    fun lamb nu iterations op sqrt => ?_⟩
  · cases hr : resolve_laplacian mesh op sqrt with
    | error e => simp [filter_laplacian, hr]
    | ok L =>
        cases hl : filter_laplacian_loop L
            ((1 : Matrix (Fin V) (Fin V) ℚ) + lamb • (1 - L)) lamb impl vc
            spsolve iterations mesh.vertices with
        | error e => simp [filter_laplacian, hr, hl]
        | ok v => simp [filter_laplacian, hr, hl]
  · cases hr : resolve_laplacian mesh op sqrt with
    | error e => simp [filter_humphrey, hr]
    | ok L => simp [filter_humphrey, hr]
  · cases hr : resolve_laplacian mesh op sqrt with
    | error e => simp [filter_taubin, hr]
    | ok L => simp [filter_taubin, hr]

/-- C5 witness: a volume-constraint `NameError` in `filter_laplacian` and
`ZeroDivisionError`s from the lazily built operator in `filter_humphrey` and
`filter_taubin` (isolated vertex) all leave the respective mesh unchanged. -/
theorem filters_leave_mesh_unchanged_on_error_witness :
    (filter_laplacian meshA (1/2) 1 false true
      (some (laplacian_equal meshA.neighbors)) (fun q => q) (fun _ v => v)
      (fun _ => 1)).2 = meshA ∧
    (filter_humphrey meshB (1/10) (1/2) 1 none (fun q => q)).2 = meshB ∧
    (filter_taubin meshB (1/2) (53/100) 2 none (fun q => q)).2 = meshB := by
  refine ⟨(filters_leave_mesh_unchanged_on_error meshA).1 (1/2) 1 false true
      (some (laplacian_equal meshA.neighbors)) (fun q => q) (fun _ v => v)
      (fun _ => 1) ?_,
    (filters_leave_mesh_unchanged_on_error meshB).2.1 (1/10) (1/2) 1 none
      (fun q => q) ?_,
    (filters_leave_mesh_unchanged_on_error meshB).2.2 (1/2) (53/100) 2 none
      (fun q => q) ?_⟩ <;> rfl

/-- C6: in explicit mode each iteration performs the simultaneous update
`v ← v + λ·(L·v − v)`; with `λ = 1` and no volume constraint one pass sends
the whole buffer to `L·v`, and for the equal-weight operator `(L·v) i` is
the centroid of the (multiset of) neighbors of `i`. -/
theorem smooth_diffusion_explicit_update {V : ℕ} (mesh : Mesh V)
    (L : Matrix (Fin V) (Fin V) ℚ) (sqrt : ℚ → ℚ)
    (spsolve : Matrix (Fin V) (Fin V) ℚ → Matrix (Fin V) (Fin 3) ℚ →
      Matrix (Fin V) (Fin 3) ℚ)
    (volume : Mesh V → ℚ) :
    (∀ (lamb : ℚ) (iterations : ℕ),
        filter_laplacian mesh lamb iterations false false (some L) sqrt
            spsolve volume
          = (none, { mesh with vertices :=
              (diffusion_explicit_step L lamb)^[iterations] mesh.vertices })) ∧
    filter_laplacian mesh 1 1 false false (some L) sqrt spsolve volume
        = (none, { mesh with vertices := L * mesh.vertices }) ∧
    (∀ (i : Fin V) (c : Fin 3), mesh.neighbors i ≠ [] →
        (laplacian_equal mesh.neighbors * mesh.vertices) i c
          = ((mesh.neighbors i).map fun j => mesh.vertices j c).sum /
              ((mesh.neighbors i).length : ℚ)) := by
  have hmain : ∀ (lamb : ℚ) (iterations : ℕ),
      filter_laplacian mesh lamb iterations false false (some L) sqrt
          spsolve volume
        = (none, { mesh with vertices :=
            (diffusion_explicit_step L lamb)^[iterations] mesh.vertices }) := by
    intro lamb iterations
    simp [filter_laplacian, resolve_laplacian, filter_laplacian_loop_explicit]
  refine ⟨hmain, ?_, fun i c _ => ?_⟩
  · rw [hmain 1 1]
    have h1 : (diffusion_explicit_step L 1)^[1] mesh.vertices
        = L * mesh.vertices := by
      rw [Function.iterate_one]
      simp only [diffusion_explicit_step, one_smul]
      abel
    rw [h1]
  · rw [Matrix.mul_apply]
    have hval : ∀ j, laplacian_equal mesh.neighbors i j * mesh.vertices j c
        = ((mesh.neighbors i).count j : ℚ)
          * ((1 / ((mesh.neighbors i).length : ℚ)) * mesh.vertices j c) := by
      intro j
      simp only [laplacian_equal, Matrix.of_apply]
      ring
    rw [Finset.sum_congr rfl fun j _ => hval j, sum_count_mul,
      List.sum_map_mul_left, one_div_mul_eq_div]

/-- C6 witness: on the triangle mesh, one explicit pass with `λ = 1` lands
every vertex on `L·v`, and entry `(0, 0)` of `L·v` is the neighbor
centroid. -/
theorem smooth_diffusion_explicit_update_witness :
    filter_laplacian meshTri 1 1 false false
      (some (laplacian_equal meshTri.neighbors)) (fun q => q) (fun _ v => v)
      (fun _ => 1)
      = (none, { meshTri with
          vertices := laplacian_equal meshTri.neighbors * meshTri.vertices }) ∧
    (laplacian_equal meshTri.neighbors * meshTri.vertices) 0 0
      = ((meshTri.neighbors 0).map fun j => meshTri.vertices j 0).sum /
          ((meshTri.neighbors 0).length : ℚ) := by
  obtain ⟨h1, h2, h3⟩ := smooth_diffusion_explicit_update meshTri
    (laplacian_equal meshTri.neighbors) (fun q => q) (fun _ v => v)
    (fun _ => 1)
  exact ⟨h2, h3 0 0 (by decide)⟩

/-- C7: in implicit mode the system matrix `AA = I + λ·(I − L)` is built
once before the loop and every iteration replaces the buffer by
`spsolve(AA, ·)` applied to the previous iteration's buffer — the same `AA`
for all iterations, with only the right-hand side evolving. -/
theorem smooth_diffusion_implicit_update {V : ℕ} (mesh : Mesh V)
    (L : Matrix (Fin V) (Fin V) ℚ) (lamb : ℚ) (iterations : ℕ)
    (sqrt : ℚ → ℚ)
    (spsolve : Matrix (Fin V) (Fin V) ℚ → Matrix (Fin V) (Fin 3) ℚ →
      Matrix (Fin V) (Fin 3) ℚ)
    (volume : Mesh V → ℚ) :
    filter_laplacian mesh lamb iterations true false (some L) sqrt spsolve
        volume
      = (none, { mesh with vertices :=
          (spsolve ((1 : Matrix (Fin V) (Fin V) ℚ) +
            lamb • (1 - L)))^[iterations] mesh.vertices }) := by
  simp [filter_laplacian, resolve_laplacian, filter_laplacian_loop_implicit]

/-- C8: `filter_humphrey` keeps the pre-smoothing positions `original` fixed
for the whole run, and each iteration maps the incoming buffer `q` to
`p − (β·b + (1−β)·L·b)` where `p = L·q` and
`b = p − (α·original + (1−α)·q)`. -/
theorem smooth_humphrey_update {V : ℕ} (mesh : Mesh V)
    (L : Matrix (Fin V) (Fin V) ℚ) (alpha beta : ℚ) (iterations : ℕ)
    (sqrt : ℚ → ℚ) :
    filter_humphrey mesh alpha beta iterations (some L) sqrt
      = (none, { mesh with vertices :=
          (humphrey_step L alpha beta
            mesh.vertices)^[iterations] mesh.vertices }) := by
  simp [filter_humphrey, resolve_laplacian, filter_humphrey_loop_iterate]

/-- C9: each `filter_taubin` iteration with 0-based index `t` computes
`d = L·v − v` and applies `v + λ·d` for even `t` and `v − ν·d` for odd `t`;
for exactly two iterations the final buffer is `v₀ + (λ·d₀ − ν·d₁)` with
`d₀ = L·v₀ − v₀`, `v₁ = v₀ + λ·d₀`, `d₁ = L·v₁ − v₁` recomputed directly. -/
theorem smooth_taubin_alternation {V : ℕ} (mesh : Mesh V)
    (L : Matrix (Fin V) (Fin V) ℚ) (lamb nu : ℚ) (sqrt : ℚ → ℚ) :
    (∀ (t : ℕ) (v : Matrix (Fin V) (Fin 3) ℚ),
        filter_taubin_loop L lamb nu t 1 v
          = if t % 2 = 0 then v + lamb • (L * v - v)
            else v - nu • (L * v - v)) ∧
    filter_taubin mesh lamb nu 2 (some L) sqrt
      = (none, { mesh with vertices :=
          mesh.vertices +
            (lamb • (L * mesh.vertices - mesh.vertices) -
              nu • (L * (mesh.vertices +
                      lamb • (L * mesh.vertices - mesh.vertices)) -
                    (mesh.vertices +
                      lamb • (L * mesh.vertices - mesh.vertices)))) }) := by
  constructor
  · intro t v
    by_cases h : t % 2 = 0 <;> simp [filter_taubin_loop, h]
  · calc filter_taubin mesh lamb nu 2 (some L) sqrt
        = (none, { mesh with vertices :=
            (mesh.vertices + lamb • (L * mesh.vertices - mesh.vertices)) -
              nu • (L * (mesh.vertices +
                      lamb • (L * mesh.vertices - mesh.vertices)) -
                    (mesh.vertices +
                      lamb • (L * mesh.vertices - mesh.vertices))) }) := rfl
      _ = _ := by rw [add_sub_assoc]

/-- C10: the second component of any filter call — the caller-visible mesh,
on success and on error alike — always carries the input mesh's neighbor
lists and triangle list unchanged: only the vertex-position array is ever
replaced. -/
theorem filters_modify_only_vertices {V : ℕ} (mesh : Mesh V) :
    (∀ (lamb : ℚ) (iterations : ℕ) (impl vc : Bool)
        (op : Option (Matrix (Fin V) (Fin V) ℚ)) (sqrt : ℚ → ℚ)
        (spsolve : Matrix (Fin V) (Fin V) ℚ → Matrix (Fin V) (Fin 3) ℚ →
          Matrix (Fin V) (Fin 3) ℚ)
        (volume : Mesh V → ℚ),
        ((filter_laplacian mesh lamb iterations impl vc op sqrt spsolve
            volume).2).neighbors = mesh.neighbors ∧
        ((filter_laplacian mesh lamb iterations impl vc op sqrt spsolve
            volume).2).faces = mesh.faces) ∧
    (∀ (alpha beta : ℚ) (iterations : ℕ)
        (op : Option (Matrix (Fin V) (Fin V) ℚ)) (sqrt : ℚ → ℚ),
        ((filter_humphrey mesh alpha beta iterations op sqrt).2).neighbors =
            mesh.neighbors ∧
        ((filter_humphrey mesh alpha beta iterations op sqrt).2).faces =
            mesh.faces) ∧
    (∀ (lamb nu : ℚ) (iterations : ℕ)
        (op : Option (Matrix (Fin V) (Fin V) ℚ)) (sqrt : ℚ → ℚ),
        ((filter_taubin mesh lamb nu iterations op sqrt).2).neighbors =
            mesh.neighbors ∧
        ((filter_taubin mesh lamb nu iterations op sqrt).2).faces =
            mesh.faces) := by
  refine ⟨fun lamb iterations impl vc op sqrt spsolve volume => ?_,
    fun alpha beta iterations op sqrt => ?_,
    fun lamb nu iterations op sqrt => ?_⟩
  · cases hr : resolve_laplacian mesh op sqrt with
    | error e => simp [filter_laplacian, hr]
    | ok L =>
        cases hl : filter_laplacian_loop L
            ((1 : Matrix (Fin V) (Fin V) ℚ) + lamb • (1 - L)) lamb impl vc
            spsolve iterations mesh.vertices with
        | error e => simp [filter_laplacian, hr, hl]
        | ok v => simp [filter_laplacian, hr, hl]
  · cases hr : resolve_laplacian mesh op sqrt with
    | error e => simp [filter_humphrey, hr]
    | ok L => simp [filter_humphrey, hr]
  · cases hr : resolve_laplacian mesh op sqrt with
    | error e => simp [filter_taubin, hr]
    | ok L => simp [filter_taubin, hr]

end Trimesh
